import Mathlib

/-!
Shallow embedding of the devclean core (src/devclean) — the scan cache
(cache.py), the scan engine (scanner.py, config.py) and the
authorization/safety/deletion tool layer (tools.py) — together with
theorems settling the specification claims.

Filesystem paths are modelled as lists of components of a resolved
absolute path (`Path("/Users/u/x")` becomes `["Users", "u", "x"]`);
Python's `a == b` on resolved paths is list equality, `a.is_relative_to(b)`
is "b is a component prefix of a", and `home.relative_to(path)` succeeds
exactly when `path` is a component prefix of `home`.  External effects
(`pathlib.Path.exists`, `du`, `shutil.rmtree`, `sudo rm -rf`) are modelled
as oracle fields of a `FS` record; a successful removal updates the
existence oracle for the removed subtree.
-/

namespace DevClean

/-- A resolved absolute filesystem path, as its list of components. -/
abbrev FPath := List String

/-- `pathStartsWith p base` is true when `base` is a component prefix of
`p` (including `p = base`) — Python's `p.is_relative_to(base)` on resolved
absolute paths. -/
def pathStartsWith : FPath → FPath → Bool
  | _, [] => true
  | [], _ :: _ => false
  | x :: xs, b :: bs => x == b && pathStartsWith xs bs

/-- `seqIsPrefix n h` is true when the character list `n` is a prefix of `h`. -/
def seqIsPrefix : List Char → List Char → Bool
  | [], _ => true
  | _ :: _, [] => false
  | n :: ns, h :: hs => n == h && seqIsPrefix ns hs

/-- `seqIsInfix n h` is true when the character list `n` occurs contiguously in `h`. -/
def seqIsInfix (needle : List Char) : List Char → Bool
  | [] => seqIsPrefix needle []
  | h :: hs => seqIsPrefix needle (h :: hs) || seqIsInfix needle hs

/-- Python's `needle in hay` substring test on strings. -/
def containsSubstr (needle hay : String) : Bool :=
  seqIsInfix needle.data hay.data

/-- A known cruft location (config.py `CruftPattern`).  `pathSuffix` is the
component list the template appends to `{home}`. -/
structure CruftPattern where
  pathSuffix : List String
  category : String
  description : String
  checkInstalled : Option String := none
  safe : Bool := true
  minSizeMb : Nat := 100
deriving DecidableEq, Repr

/-- The static pattern catalog (config.py `CRUFT_PATTERNS`). -/
def CRUFT_PATTERNS : List CruftPattern := [
  ⟨[".cache", "pre-commit"], "python", "Pre-commit hook environments", some "pre-commit --version", true, 100⟩,
  ⟨[".cache", "pip"], "python", "pip download cache", some "pip --version", true, 100⟩,
  ⟨[".cache", "uv"], "python", "uv package cache", some "uv --version", true, 100⟩,
  ⟨[".cache", "pypoetry"], "python", "Poetry cache", some "poetry --version", true, 100⟩,
  ⟨["Library", "Caches", "pypoetry"], "python", "Poetry cache (Library)", some "poetry --version", true, 100⟩,
  ⟨[".cache", "torch"], "ml", "PyTorch downloaded models", none, true, 100⟩,
  ⟨[".cache", "huggingface"], "ml", "HuggingFace models and datasets", none, true, 100⟩,
  ⟨[".cache", "whisper"], "ml", "OpenAI Whisper models", none, true, 100⟩,
  ⟨[".cache", "yarn"], "node", "Yarn cache", some "yarn --version", true, 100⟩,
  ⟨["Library", "Caches", "Yarn"], "node", "Yarn cache (Library)", some "yarn --version", true, 100⟩,
  ⟨[".npm"], "node", "npm cache", some "npm --version", true, 100⟩,
  ⟨[".cache", "node-gyp"], "node", "node-gyp build cache", some "node --version", true, 100⟩,
  ⟨["Library", "Caches", "node-gyp"], "node", "node-gyp cache (Library)", some "node --version", true, 100⟩,
  ⟨["Library", "Containers", "com.docker.docker"], "docker", "Docker Desktop data", some "docker --version", false, 100⟩,
  ⟨[".docker"], "docker", "Docker config and buildx cache", some "docker --version", true, 100⟩,
  ⟨["Library", "Caches", "ms-playwright"], "testing", "Playwright browser binaries", none, true, 100⟩,
  ⟨[".cache", "ms-playwright"], "testing", "Playwright browsers (cache)", none, true, 100⟩,
  ⟨[".cache", "selenium"], "testing", "Selenium webdriver cache", none, true, 100⟩,
  ⟨["Library", "Caches", "org.R-project.R"], "r", "R package cache", some "R --version", true, 100⟩,
  ⟨["Library", "Developer", "Xcode", "DerivedData"], "xcode", "Xcode build cache", some "xcodebuild -version", true, 100⟩,
  ⟨["Library", "Developer", "Xcode", "Archives"], "xcode", "Xcode app archives", some "xcodebuild -version", false, 100⟩,
  ⟨["Library", "Developer", "Xcode", "iOS DeviceSupport"], "xcode", "iOS device support files", some "xcodebuild -version", true, 100⟩,
  ⟨["Library", "Developer", "CoreSimulator", "Caches"], "xcode", "iOS Simulator caches", some "xcodebuild -version", true, 100⟩,
  ⟨["Library", "Caches", "Homebrew"], "homebrew", "Homebrew download cache", some "brew --version", true, 100⟩,
  ⟨["Library", "Caches", "Google"], "browser", "Chrome cache", none, true, 500⟩,
  ⟨["Library", "Caches", "Mozilla"], "browser", "Firefox cache", none, true, 500⟩,
  ⟨[".cache", "act"], "ci", "act (local GitHub Actions) cache", some "act --version", true, 100⟩,
  ⟨[".gradle", "caches"], "java", "Gradle build cache", some "gradle --version", true, 100⟩,
  ⟨[".m2", "repository"], "java", "Maven local repository", some "mvn --version", true, 100⟩,
  ⟨[".cargo", "registry"], "rust", "Cargo package registry cache", some "cargo --version", true, 100⟩,
  ⟨["go", "pkg", "mod"], "go", "Go module cache", some "go version", true, 100⟩]

/-- tools.py `is_known_cruft_pattern`: the exact resolved path equals some
catalog template expanded against `home` and that pattern is marked safe. -/
def isKnownCruftPattern (home path : FPath) : Bool :=
  CRUFT_PATTERNS.any fun pat => path == home ++ pat.pathSuffix && pat.safe

/-- The protected-path list built inside the `delete_directory` branch of
tools.py `execute_tool` (home, its special subdirectories, `/`, `/System`,
`/Applications`). -/
def protectedList (home : FPath) : List FPath :=
  [home,
   home ++ ["Documents"],
   home ++ ["Desktop"],
   home ++ ["Downloads"],
   home ++ ["Pictures"],
   home ++ ["Music"],
   home ++ ["Movies"],
   [],
   ["System"],
   ["Applications"]]

/-- Result of `shutil.rmtree`. -/
inductive RmRes where
  | ok
  | permissionError
  | otherError (msg : String)
deriving DecidableEq, Repr

/-- Result of `sudo rm -rf` (failure carries the subprocess stderr). -/
inductive SudoRes where
  | ok
  | fail (stderr : String)
deriving DecidableEq, Repr

/-- Oracles for the external filesystem effects used by tools.py. -/
structure FS where
  exists_ : FPath → Bool
  duSize : FPath → Option Nat
  rmtree : FPath → RmRes
  sudoRm : FPath → SudoRes

/-- Mutable state of the tool layer: the `_pending_confirmations`
authorization set of tools.py plus the filesystem. -/
structure DState where
  pending : List FPath
  fs : FS

/-- A successful removal: the path is cleared from the authorization set
and the removed subtree no longer exists. -/
def removeSucceed (st : DState) (path : FPath) : DState :=
  { pending := st.pending.filter (· ≠ path),
    fs := { st.fs with
            exists_ := fun q => if pathStartsWith q path then false else st.fs.exists_ q } }

/-- Terminal outcome of a single `delete_directory` request, keyed by the
JSON `error` value (all three `protected*` constructors are reported as
`PROTECTED_PATH` with different messages). -/
inductive DelOutcome where
  | pathNotScanned
  | pathNotFound
  | protectedExact
  | protectedUnder
  | protectedContainsHome
  | fullDiskAccessRequired
  | sudoFailed (stderr : String)
  | permissionDenied
  | unknownError (msg : String)
  | success (freed : Option Nat)
deriving DecidableEq, Repr

/-- Whether an outcome is a `PROTECTED_PATH` denial. -/
def isProtectedDenied : DelOutcome → Bool
  | .protectedExact => true
  | .protectedUnder => true
  | .protectedContainsHome => true
  | _ => false

/-- The protected-path loop of `delete_directory` (run when `force` is
false): for each protected entry in order, an exact match denies, a
proper-ancestor match denies unless the path is a known safe cruft
pattern, in which case the loop breaks and deletion is allowed. -/
def protectedCheckGo (home path : FPath) : List FPath → Option DelOutcome
  | [] => none
  | e :: rest =>
    if path = e then some .protectedExact
    else if pathStartsWith path e then
      if isKnownCruftPattern home path then none
      else some .protectedUnder
    else protectedCheckGo home path rest

/-- The full protected-path check over `protectedList home`. -/
def protectedCheck (home path : FPath) : Option DelOutcome :=
  protectedCheckGo home path (protectedList home)

/-- Result of a deletion request: terminal outcome, updated state, and the
list of paths on which a removal (`shutil.rmtree` / `sudo rm -rf`) was
actually attempted. -/
structure DelResult where
  outcome : DelOutcome
  state : DState
  attempts : List FPath

/-- The `delete_directory` branch of tools.py `execute_tool`:
authorization check, existence check (releasing authorization when the
path is gone), protection checks unless `force`, the never-overridable
ancestor-of-home check, then removal and outcome classification. -/
def deleteDirectory (home : FPath) (st : DState) (path : FPath)
    (useSudo force : Bool) : DelResult :=
  if path ∉ st.pending then
    ⟨.pathNotScanned, st, []⟩
  else if st.fs.exists_ path = false then
    ⟨.pathNotFound, { st with pending := st.pending.filter (· ≠ path) }, []⟩
  else
    match (if force then none else protectedCheck home path) with
    | some oc => ⟨oc, st, []⟩
    | none =>
      if pathStartsWith home path then
        ⟨.protectedContainsHome, st, []⟩
      else
        let size := st.fs.duSize path
        if useSudo then
          match st.fs.sudoRm path with
          | .ok => ⟨.success size, removeSucceed st path, [path]⟩
          | .fail stderr =>
            if containsSubstr "Operation not permitted" stderr then
              ⟨.fullDiskAccessRequired, st, [path]⟩
            else
              ⟨.sudoFailed stderr, st, [path]⟩
        else
          match st.fs.rmtree path with
          | .ok => ⟨.success size, removeSucceed st path, [path]⟩
          | .permissionError => ⟨.permissionDenied, st, [path]⟩
          | .otherError m => ⟨.unknownError m, st, [path]⟩

/-! ### Path and catalog helper lemmas -/

theorem pathStartsWith_nil (p : FPath) : pathStartsWith p [] = true := by
  cases p <;> rfl

theorem pathStartsWith_append (base s : FPath) :
    pathStartsWith (base ++ s) base = true := by
  induction base with
  | nil => simp [pathStartsWith_nil]
  | cons b bs ih => simp [pathStartsWith, ih]

theorem pathStartsWith_append_ne (base s : FPath) (hs : s ≠ []) :
    pathStartsWith base (base ++ s) = false := by
  induction base with
  | nil =>
    cases s with
    | nil => exact absurd rfl hs
    | cons a as => rfl
  | cons b bs ih => simp [pathStartsWith, ih]

theorem append_ne_of_ne_nil (base s : FPath) (hs : s ≠ []) :
    base ++ s ≠ base := by
  intro h
  have hlen : base.length + s.length = base.length := by
    simpa using congrArg List.length h
  have : s.length = 0 := by omega
  exact hs (List.eq_nil_of_length_eq_zero this)

theorem cruft_suffix_ne_nil (p : CruftPattern) (hp : p ∈ CRUFT_PATTERNS) :
    p.pathSuffix ≠ [] := by
  have hall : CRUFT_PATTERNS.all (fun q => !q.pathSuffix.isEmpty) = true := by decide
  have hthis := List.all_eq_true.mp hall p hp
  intro hnil
  rw [hnil] at hthis
  simp at hthis

theorem isKnownCruftPattern_expand (home : FPath) (p : CruftPattern)
    (hp : p ∈ CRUFT_PATTERNS) (hsafe : p.safe = true) :
    isKnownCruftPattern home (home ++ p.pathSuffix) = true := by
  unfold isKnownCruftPattern
  rw [List.any_eq_true]
  exact ⟨p, hp, by simp [hsafe]⟩

theorem protectedCheckGo_denied (home path : FPath) (l : List FPath) (oc : DelOutcome)
    (h : protectedCheckGo home path l = some oc) : isProtectedDenied oc = true := by
  induction l with
  | nil => simp [protectedCheckGo] at h
  | cons e rest ih =>
    unfold protectedCheckGo at h
    split at h
    · injection h with h2
      rw [← h2]
      rfl
    · split at h
      · split at h
        · simp at h
        · injection h with h2
          rw [← h2]
          rfl
      · exact ih h

theorem protectedCheck_denied (home path : FPath) (oc : DelOutcome)
    (h : protectedCheck home path = some oc) : isProtectedDenied oc = true :=
  protectedCheckGo_denied home path (protectedList home) oc h

theorem protectedCheck_safe_pattern (home : FPath) (p : CruftPattern)
    (hp : p ∈ CRUFT_PATTERNS) (hsafe : p.safe = true) :
    protectedCheck home (home ++ p.pathSuffix) = none := by
  have hs : p.pathSuffix ≠ [] := cruft_suffix_ne_nil p hp
  unfold protectedCheck protectedList protectedCheckGo
  rw [if_neg (append_ne_of_ne_nil home p.pathSuffix hs)]
  rw [if_pos (by simp [pathStartsWith_append])]
  rw [if_pos (isKnownCruftPattern_expand home p hp hsafe)]

/-! ### Claim theorems: single-path deletion (C1, C2, C4) -/

/-- Concrete filesystem oracle used by witnesses: everything exists,
every removal succeeds, every directory measures 42 bytes. -/
def fsAllOk : FS where
  exists_ := fun _ => true
  duSize := fun _ => some 42
  rmtree := fun _ => .ok
  sudoRm := fun _ => .ok

/-- C1: a delete request for a path that is not in the authorization set
(never discovered by a scan and never explicitly approved) terminates with
the distinct `PATH_NOT_SCANNED` outcome for any flag values, attempts no
removal, and leaves the state (authorizations and filesystem) unchanged. -/
theorem delete_unauthorized_is_noop (home : FPath) (st : DState) (path : FPath)
    (useSudo force : Bool) (h : path ∉ st.pending) :
    deleteDirectory home st path useSudo force = ⟨.pathNotScanned, st, []⟩ := by
  simp [deleteDirectory, h]

/-- Witness for C1 at a concrete input. -/
theorem delete_unauthorized_is_noop_w :
    (["tmp", "junk"] : FPath) ∉ (⟨[], fsAllOk⟩ : DState).pending ∧
    deleteDirectory ["Users", "u"] ⟨[], fsAllOk⟩ ["tmp", "junk"] true true
      = ⟨.pathNotScanned, ⟨[], fsAllOk⟩, []⟩ :=
  ⟨by simp, delete_unauthorized_is_noop _ _ _ _ _ (by simp)⟩

/-- C2: for any authorized, existing path `path` that is the home
directory or an ancestor of it, `delete_directory` terminates with a
`PROTECTED_PATH` denial for every combination of `use_sudo` and `force`,
attempts no removal and changes nothing; with `force = true` the denial is
specifically the never-overridable "contains home directory" refusal. -/
theorem delete_home_ancestor_denied (home : FPath) (st : DState) (path : FPath)
    (useSudo force : Bool) (hauth : path ∈ st.pending)
    (hex : st.fs.exists_ path = true)
    (hanc : pathStartsWith home path = true) :
    ∃ oc, deleteDirectory home st path useSudo force = ⟨oc, st, []⟩ ∧
      isProtectedDenied oc = true ∧
      (force = true → oc = .protectedContainsHome) := by
  unfold deleteDirectory
  rw [if_neg (by simp [hauth])]
  rw [if_neg (by simp [hex])]
  cases force with
  | true =>
    refine ⟨.protectedContainsHome, ?_, rfl, fun _ => rfl⟩
    simp [hanc]
  | false =>
    simp only [Bool.false_eq_true, if_false]
    rcases hpc : protectedCheck home path with _ | oc
    · refine ⟨.protectedContainsHome, ?_, rfl, by simp⟩
      simp [hanc]
    · exact ⟨oc, by simp, protectedCheck_denied home path oc hpc, by simp⟩

/-- Witness for C2 at a concrete input: home `/Users/u`, deleting the
authorized existing ancestor `/Users` with `use_sudo = force = true`. -/
theorem delete_home_ancestor_denied_w :
    ∃ oc, deleteDirectory ["Users", "u"] ⟨[["Users"]], fsAllOk⟩ ["Users"] true true
        = ⟨oc, ⟨[["Users"]], fsAllOk⟩, []⟩ ∧
      isProtectedDenied oc = true ∧
      (true = true → oc = .protectedContainsHome) :=
  delete_home_ancestor_denied _ _ _ _ _ (by simp) rfl (by decide)

/-- C4: an authorized, existing path that exactly equals a safe catalog
pattern expanded against the home root (hence a strict descendant of the
protected home directory) is not stopped by any protection rule when
deleted with `use_sudo = false` and `force = false`: the request reaches
the removal step (exactly one removal attempt on that path) instead of
terminating in a `PROTECTED_PATH`, `PATH_NOT_SCANNED` or `PATH_NOT_FOUND`
outcome. -/
theorem delete_safe_pattern_not_denied (home : FPath) (st : DState)
    (p : CruftPattern) (hp : p ∈ CRUFT_PATTERNS) (hsafe : p.safe = true)
    (hauth : home ++ p.pathSuffix ∈ st.pending)
    (hex : st.fs.exists_ (home ++ p.pathSuffix) = true) :
    isProtectedDenied (deleteDirectory home st (home ++ p.pathSuffix) false false).outcome
        = false ∧
    (deleteDirectory home st (home ++ p.pathSuffix) false false).outcome ≠ .pathNotScanned ∧
    (deleteDirectory home st (home ++ p.pathSuffix) false false).outcome ≠ .pathNotFound ∧
    (deleteDirectory home st (home ++ p.pathSuffix) false false).attempts
        = [home ++ p.pathSuffix] := by
  have hs : p.pathSuffix ≠ [] := cruft_suffix_ne_nil p hp
  unfold deleteDirectory
  rw [if_neg (by simp [hauth])]
  rw [if_neg (by simp [hex])]
  simp only [Bool.false_eq_true, if_false]
  rw [protectedCheck_safe_pattern home p hp hsafe]
  simp only
  rw [if_neg (by simp [pathStartsWith_append_ne home p.pathSuffix hs])]
  rcases st.fs.rmtree (home ++ p.pathSuffix) with _ | _ | m <;> simp [isProtectedDenied]

/-- Witness for C4 at a concrete input: home `/Users/u` and the safe
catalog pattern `{home}/.cache/pre-commit`. -/
theorem delete_safe_pattern_not_denied_w :
    isProtectedDenied (deleteDirectory ["Users", "u"]
        ⟨[["Users", "u", ".cache", "pre-commit"]], fsAllOk⟩
        (["Users", "u"] ++ [".cache", "pre-commit"]) false false).outcome = false ∧
    (deleteDirectory ["Users", "u"] ⟨[["Users", "u", ".cache", "pre-commit"]], fsAllOk⟩
        (["Users", "u"] ++ [".cache", "pre-commit"]) false false).outcome
        ≠ .pathNotScanned ∧
    (deleteDirectory ["Users", "u"] ⟨[["Users", "u", ".cache", "pre-commit"]], fsAllOk⟩
        (["Users", "u"] ++ [".cache", "pre-commit"]) false false).outcome
        ≠ .pathNotFound ∧
    (deleteDirectory ["Users", "u"] ⟨[["Users", "u", ".cache", "pre-commit"]], fsAllOk⟩
        (["Users", "u"] ++ [".cache", "pre-commit"]) false false).attempts
        = [["Users", "u"] ++ [".cache", "pre-commit"]] :=
  delete_safe_pattern_not_denied ["Users", "u"] _
    ⟨[".cache", "pre-commit"], "python", "Pre-commit hook environments",
      some "pre-commit --version", true, 100⟩
    (by decide) rfl (by decide) rfl

/-! ### Batch deletion (tools.py `force_delete_cruft` branch) -/

/-- Aggregation accumulator of the `force_delete_cruft` loop: deleted
paths, failed paths with their error text, total freed bytes, and the
removal attempts actually made. -/
structure BatchAcc where
  deleted : List FPath
  failed : List (FPath × String)
  freed : Nat
  attempts : List FPath
deriving DecidableEq, Repr

/-- The `force_delete_cruft` loop over a snapshot of the authorization
set: a path that no longer exists is silently released and skipped; an
existing path is removed (via `sudo rm -rf` or `shutil.rmtree`), a success
is recorded with its pre-measured size and released, a failure is recorded
with its error text and the loop continues.  There is no protection or
safety check of any kind in this loop. -/
def batchGo (useSudo : Bool) : List FPath → DState → BatchAcc → BatchAcc × DState
  | [], st, acc => (acc, st)
  | p :: rest, st, acc =>
    if st.fs.exists_ p = false then
      batchGo useSudo rest { st with pending := st.pending.filter (· ≠ p) } acc
    else
      let size := st.fs.duSize p
      if useSudo then
        match st.fs.sudoRm p with
        | .ok =>
          batchGo useSudo rest (removeSucceed st p)
            { acc with deleted := acc.deleted ++ [p], freed := acc.freed + size.getD 0,
                       attempts := acc.attempts ++ [p] }
        | .fail stderr =>
          batchGo useSudo rest st
            { acc with failed := acc.failed ++ [(p, stderr)],
                       attempts := acc.attempts ++ [p] }
      else
        match st.fs.rmtree p with
        | .ok =>
          batchGo useSudo rest (removeSucceed st p)
            { acc with deleted := acc.deleted ++ [p], freed := acc.freed + size.getD 0,
                       attempts := acc.attempts ++ [p] }
        | .permissionError =>
          batchGo useSudo rest st
            { acc with failed := acc.failed ++ [(p, "Permission denied")],
                       attempts := acc.attempts ++ [p] }
        | .otherError m =>
          batchGo useSudo rest st
            { acc with failed := acc.failed ++ [(p, m)],
                       attempts := acc.attempts ++ [p] }

/-- Structured result of `force_delete_cruft`: the retry hint mirrors the
source's check that some failure's error text contains
`"Permission denied"`. -/
inductive BatchResult where
  | notConfirmed
  | nothingPending
  | report (deleted : List FPath) (failed : List (FPath × String)) (freed : Nat)
      (retryWithSudoHint : Bool)
deriving DecidableEq, Repr

/-- The `force_delete_cruft` branch of tools.py `execute_tool`. -/
def forceDeleteCruft (st : DState) (confirm useSudo : Bool) :
    BatchResult × DState × List FPath :=
  if confirm = false then (.notConfirmed, st, [])
  else if st.pending.isEmpty then (.nothingPending, st, [])
  else
    let r := batchGo useSudo st.pending st ⟨[], [], 0, []⟩
    (.report r.1.deleted r.1.failed r.1.freed
        (r.1.failed.any fun f => containsSubstr "Permission denied" f.2),
     r.2, r.1.attempts)

/-! Invariant lemmas for the batch loop. -/

theorem batchGo_fs_inv (useSudo : Bool) (l : List FPath) (st : DState) (acc : BatchAcc) :
    (batchGo useSudo l st acc).2.fs.duSize = st.fs.duSize ∧
    (batchGo useSudo l st acc).2.fs.rmtree = st.fs.rmtree ∧
    (batchGo useSudo l st acc).2.fs.sudoRm = st.fs.sudoRm := by
  induction l generalizing st acc with
  | nil => exact ⟨rfl, rfl, rfl⟩
  | cons p rest ih =>
    unfold batchGo
    split
    · exact ih _ _
    · split
      · rcases st.fs.sudoRm p with _ | stderr
        · exact ih _ _
        · exact ih _ _
      · rcases st.fs.rmtree p with _ | _ | m
        · exact ih _ _
        · exact ih _ _
        · exact ih _ _

theorem batchGo_exists_mono (useSudo : Bool) (l : List FPath) (st : DState)
    (acc : BatchAcc) (p : FPath) (hp : st.fs.exists_ p = false) :
    (batchGo useSudo l st acc).2.fs.exists_ p = false := by
  induction l generalizing st acc with
  | nil => exact hp
  | cons q rest ih =>
    have hrm : ∀ st' : DState, st'.fs.exists_ p = false →
        (removeSucceed st' q).fs.exists_ p = false := by
      intro st' h
      unfold removeSucceed
      by_cases hq : pathStartsWith p q = true
      · simp [hq]
      · simp [hq, h]
    unfold batchGo
    split
    · exact ih _ _ hp
    · split
      · rcases st.fs.sudoRm q with _ | stderr
        · exact ih _ _ (hrm st hp)
        · exact ih _ _ hp
      · rcases st.fs.rmtree q with _ | _ | m
        · exact ih _ _ (hrm st hp)
        · exact ih _ _ hp
        · exact ih _ _ hp

theorem batchGo_pending_shrink (useSudo : Bool) (l : List FPath) (st : DState)
    (acc : BatchAcc) (x : FPath) (hx : x ∈ (batchGo useSudo l st acc).2.pending) :
    x ∈ st.pending := by
  induction l generalizing st acc with
  | nil => exact hx
  | cons q rest ih =>
    unfold batchGo at hx
    split at hx
    · exact List.mem_of_mem_filter (ih _ _ hx)
    · split at hx
      · rcases hs : st.fs.sudoRm q with _ | stderr <;> rw [hs] at hx
        · exact List.mem_of_mem_filter (ih _ _ hx)
        · exact ih _ _ hx
      · rcases hs : st.fs.rmtree q with _ | _ | m <;> rw [hs] at hx
        · exact List.mem_of_mem_filter (ih _ _ hx)
        · exact ih _ _ hx
        · exact ih _ _ hx

theorem batchGo_acc_mono (useSudo : Bool) (l : List FPath) (st : DState) (acc : BatchAcc) :
    (∀ x ∈ acc.deleted, x ∈ (batchGo useSudo l st acc).1.deleted) ∧
    (∀ f ∈ acc.failed, f ∈ (batchGo useSudo l st acc).1.failed) := by
  induction l generalizing st acc with
  | nil => exact ⟨fun x hx => hx, fun f hf => hf⟩
  | cons q rest ih =>
    unfold batchGo
    split
    · exact ih _ _
    · split
      · rcases st.fs.sudoRm q with _ | stderr
        · exact ⟨fun x hx => (ih _ _).1 x (by simp [hx]), fun f hf => (ih _ _).2 f (by simp [hf])⟩
        · exact ⟨fun x hx => (ih _ _).1 x (by simp [hx]), fun f hf => (ih _ _).2 f (by simp [hf])⟩
      · rcases st.fs.rmtree q with _ | _ | m
        · exact ⟨fun x hx => (ih _ _).1 x (by simp [hx]), fun f hf => (ih _ _).2 f (by simp [hf])⟩
        · exact ⟨fun x hx => (ih _ _).1 x (by simp [hx]), fun f hf => (ih _ _).2 f (by simp [hf])⟩
        · exact ⟨fun x hx => (ih _ _).1 x (by simp [hx]), fun f hf => (ih _ _).2 f (by simp [hf])⟩

theorem removeSucceed_exists_mono (st : DState) (q p : FPath)
    (hp : st.fs.exists_ p = false) : (removeSucceed st q).fs.exists_ p = false := by
  unfold removeSucceed
  by_cases hsw : pathStartsWith p q = true
  · simp [hsw]
  · simp [hsw, hp]

theorem batchGo_nonexistent_not_deleted (useSudo : Bool) (l : List FPath) (st : DState)
    (acc : BatchAcc) (p : FPath) (hp : st.fs.exists_ p = false)
    (hacc : p ∉ acc.deleted) : p ∉ (batchGo useSudo l st acc).1.deleted := by
  induction l generalizing st acc with
  | nil => exact hacc
  | cons q rest ih =>
    unfold batchGo
    split
    · exact ih _ _ hp hacc
    · next hq =>
      have hqp : p ≠ q := by
        intro h
        rw [h] at hp
        exact hq hp
      have hnd : p ∉ acc.deleted ++ [q] := by
        simp only [List.mem_append, List.mem_singleton]
        rintro (h | h)
        · exact hacc h
        · exact hqp h
      split
      · rcases st.fs.sudoRm q with _ | stderr
        · exact ih _ _ (removeSucceed_exists_mono st q p hp) hnd
        · exact ih _ _ hp hacc
      · rcases st.fs.rmtree q with _ | _ | m
        · exact ih _ _ (removeSucceed_exists_mono st q p hp) hnd
        · exact ih _ _ hp hacc
        · exact ih _ _ hp hacc

theorem batchGo_nonexistent_not_failed (useSudo : Bool) (l : List FPath) (st : DState)
    (acc : BatchAcc) (p : FPath) (hp : st.fs.exists_ p = false)
    (hacc : ∀ e, (p, e) ∉ acc.failed) :
    ∀ e, (p, e) ∉ (batchGo useSudo l st acc).1.failed := by
  induction l generalizing st acc with
  | nil => exact hacc
  | cons q rest ih =>
    unfold batchGo
    split
    · exact ih _ _ hp hacc
    · next hq =>
      have hqp : p ≠ q := by
        intro h
        rw [h] at hp
        exact hq hp
      have hnf : ∀ m e, (p, e) ∉ acc.failed ++ [(q, m)] := by
        intro m e
        simp only [List.mem_append, List.mem_singleton, Prod.mk.injEq]
        rintro (h | ⟨h, -⟩)
        · exact hacc e h
        · exact hqp h
      split
      · rcases st.fs.sudoRm q with _ | stderr
        · exact ih _ _ (removeSucceed_exists_mono st q p hp) hacc
        · exact ih _ _ hp (hnf stderr)
      · rcases st.fs.rmtree q with _ | _ | m
        · exact ih _ _ (removeSucceed_exists_mono st q p hp) hacc
        · exact ih _ _ hp (hnf "Permission denied")
        · exact ih _ _ hp (hnf m)

theorem batchGo_nonexistent_not_pending (useSudo : Bool) (l : List FPath) (st : DState)
    (acc : BatchAcc) (p : FPath) (hl : p ∈ l) (hp : st.fs.exists_ p = false) :
    p ∉ (batchGo useSudo l st acc).2.pending := by
  induction l generalizing st acc with
  | nil => cases hl
  | cons q rest ih =>
    unfold batchGo
    split
    · next hq =>
      by_cases hpq : p = q
      · subst hpq
        intro hmem
        have hshr := batchGo_pending_shrink useSudo rest _ acc p hmem
        simp only [List.mem_filter, decide_eq_true_eq] at hshr
        exact hshr.2 rfl
      · have hrest : p ∈ rest := by
          rcases List.mem_cons.mp hl with h | h
          · exact absurd h hpq
          · exact h
        exact ih _ _ hrest hp
    · next hq =>
      have hpq : p ≠ q := by
        intro h
        rw [h] at hp
        exact hq hp
      have hrest : p ∈ rest := by
        rcases List.mem_cons.mp hl with h | h
        · exact absurd h hpq
        · exact h
      split
      · rcases st.fs.sudoRm q with _ | stderr
        · exact ih _ _ hrest (removeSucceed_exists_mono st q p hp)
        · exact ih _ _ hrest hp
      · rcases st.fs.rmtree q with _ | _ | m
        · exact ih _ _ hrest (removeSucceed_exists_mono st q p hp)
        · exact ih _ _ hrest hp
        · exact ih _ _ hrest hp

theorem batchGo_coverage (useSudo : Bool) (l : List FPath) (st : DState)
    (acc : BatchAcc) (p : FPath) (hl : p ∈ l) :
    p ∈ (batchGo useSudo l st acc).1.deleted ∨
    (∃ e, (p, e) ∈ (batchGo useSudo l st acc).1.failed) ∨
    (batchGo useSudo l st acc).2.fs.exists_ p = false := by
  induction l generalizing st acc with
  | nil => cases hl
  | cons q rest ih =>
    unfold batchGo
    split
    · next hq =>
      by_cases hpq : p = q
      · subst hpq
        exact Or.inr (Or.inr (batchGo_exists_mono useSudo rest _ acc p hq))
      · have hrest : p ∈ rest := by
          rcases List.mem_cons.mp hl with h | h
          · exact absurd h hpq
          · exact h
        exact ih _ _ hrest
    · next hq =>
      by_cases hpq : p = q
      · subst hpq
        split
        · rcases st.fs.sudoRm p with _ | stderr
          · exact Or.inl ((batchGo_acc_mono useSudo rest _ _).1 p (by simp))
          · exact Or.inr (Or.inl ⟨stderr, (batchGo_acc_mono useSudo rest _ _).2 _ (by simp)⟩)
        · rcases st.fs.rmtree p with _ | _ | m
          · exact Or.inl ((batchGo_acc_mono useSudo rest _ _).1 p (by simp))
          · exact Or.inr (Or.inl ⟨"Permission denied",
              (batchGo_acc_mono useSudo rest _ _).2 _ (by simp)⟩)
          · exact Or.inr (Or.inl ⟨m, (batchGo_acc_mono useSudo rest _ _).2 _ (by simp)⟩)
      · have hrest : p ∈ rest := by
          rcases List.mem_cons.mp hl with h | h
          · exact absurd h hpq
          · exact h
        split
        · rcases st.fs.sudoRm q with _ | stderr
          · exact ih _ _ hrest
          · exact ih _ _ hrest
        · rcases st.fs.rmtree q with _ | _ | m
          · exact ih _ _ hrest
          · exact ih _ _ hrest
          · exact ih _ _ hrest

theorem batchGo_freed (useSudo : Bool) (l : List FPath) (st : DState) (acc : BatchAcc) :
    ∃ extra, (batchGo useSudo l st acc).1.deleted = acc.deleted ++ extra ∧
      (batchGo useSudo l st acc).1.freed =
        acc.freed + (extra.map fun p => (st.fs.duSize p).getD 0).sum := by
  induction l generalizing st acc with
  | nil => exact ⟨[], by simp [batchGo], by simp [batchGo]⟩
  | cons q rest ih =>
    unfold batchGo
    split
    · exact ih _ _
    · split
      · rcases st.fs.sudoRm q with _ | stderr
        · obtain ⟨extra, h1, h2⟩ := ih (removeSucceed st q)
            { acc with deleted := acc.deleted ++ [q],
                       freed := acc.freed + (st.fs.duSize q).getD 0,
                       attempts := acc.attempts ++ [q] }
          refine ⟨q :: extra, ?_, ?_⟩
          · rw [h1]
            simp
          · rw [h2]
            simp only [removeSucceed, List.map_cons, List.sum_cons]
            omega
        · obtain ⟨extra, h1, h2⟩ := ih st
            { acc with failed := acc.failed ++ [(q, stderr)],
                       attempts := acc.attempts ++ [q] }
          exact ⟨extra, by simpa using h1, by simpa using h2⟩
      · rcases st.fs.rmtree q with _ | _ | m
        · obtain ⟨extra, h1, h2⟩ := ih (removeSucceed st q)
            { acc with deleted := acc.deleted ++ [q],
                       freed := acc.freed + (st.fs.duSize q).getD 0,
                       attempts := acc.attempts ++ [q] }
          refine ⟨q :: extra, ?_, ?_⟩
          · rw [h1]
            simp
          · rw [h2]
            simp only [removeSucceed, List.map_cons, List.sum_cons]
            omega
        · obtain ⟨extra, h1, h2⟩ := ih st
            { acc with failed := acc.failed ++ [(q, "Permission denied")],
                       attempts := acc.attempts ++ [q] }
          exact ⟨extra, by simpa using h1, by simpa using h2⟩
        · obtain ⟨extra, h1, h2⟩ := ih st
            { acc with failed := acc.failed ++ [(q, m)],
                       attempts := acc.attempts ++ [q] }
          exact ⟨extra, by simpa using h1, by simpa using h2⟩

/-- C3 counterexample: the batch operation does NOT apply the single-path
state machine's PathSafetyValidator step.  With home `/Users/u` and the
authorized existing path `/Users` (an ancestor of home), the single-path
machine refuses with a `PROTECTED_PATH` outcome and no removal attempt —
both without `force` and with `force = true` (the never-overridable
contains-home rule) — yet `force_delete_cruft` deletes `/Users` outright,
reporting it as a success with its measured size. -/
theorem batch_skips_safety_validator_cx :
    (forceDeleteCruft ⟨[["Users"]], fsAllOk⟩ true false).1
        = .report [["Users"]] [] 42 false ∧
    (forceDeleteCruft ⟨[["Users"]], fsAllOk⟩ true false).2.2 = [["Users"]] ∧
    (deleteDirectory ["Users", "u"] ⟨[["Users"]], fsAllOk⟩ ["Users"] false false).outcome
        = .protectedUnder ∧
    (deleteDirectory ["Users", "u"] ⟨[["Users"]], fsAllOk⟩ ["Users"] false false).attempts
        = [] ∧
    (deleteDirectory ["Users", "u"] ⟨[["Users"]], fsAllOk⟩ ["Users"] false true).outcome
        = .protectedContainsHome ∧
    (deleteDirectory ["Users", "u"] ⟨[["Users"]], fsAllOk⟩ ["Users"] false true).attempts
        = [] := by
  refine ⟨?_, ?_, ?_, ?_, ?_, ?_⟩ <;> rfl

/-- C3 (amended): the batch deletion operation iterates sequentially over
every path currently in the authorization store, silently skipping paths
that no longer exist (releasing their authorization, counting them
neither as successes nor as failures), continuing past individual
failures while aggregating successes, failures and total freed bytes, and
flagging whether any failure's error text suggests a retry with
elevation; it applies no PathSafetyValidator step. -/
theorem batch_delete_iterates_authorization_store (st : DState) (useSudo : Bool)
    (hne : st.pending ≠ []) :
    ∃ deleted failed freed hint st2 attempts,
      forceDeleteCruft st true useSudo
        = (.report deleted failed freed hint, st2, attempts) ∧
      (∀ p ∈ st.pending, st.fs.exists_ p = false →
          p ∉ deleted ∧ (∀ e, (p, e) ∉ failed) ∧ p ∉ st2.pending) ∧
      (∀ p ∈ st.pending,
          p ∈ deleted ∨ (∃ e, (p, e) ∈ failed) ∨ st2.fs.exists_ p = false) ∧
      freed = (deleted.map fun p => (st.fs.duSize p).getD 0).sum ∧
      hint = failed.any (fun f => containsSubstr "Permission denied" f.2) := by
  have hje : ¬(st.pending.isEmpty = true) := by
    cases h : st.pending with
    | nil => exact absurd h hne
    | cons a l => simp [h]
  unfold forceDeleteCruft
  rw [if_neg (by simp)]
  rw [if_neg hje]
  refine ⟨_, _, _, _, _, _, rfl, ?_, ?_, ?_, rfl⟩
  · intro p _ hp
    refine ⟨batchGo_nonexistent_not_deleted useSudo st.pending st _ p hp (by simp),
            batchGo_nonexistent_not_failed useSudo st.pending st _ p hp (by simp),
            batchGo_nonexistent_not_pending useSudo st.pending st _ p ?_ hp⟩
    assumption
  · intro p hp
    exact batchGo_coverage useSudo st.pending st _ p hp
  · obtain ⟨extra, h1, h2⟩ := batchGo_freed useSudo st.pending st ⟨[], [], 0, []⟩
    rw [h1, h2]
    simp

/-- Concrete oracle realizing spec Scenario D: `/gone` no longer exists,
`/locked` fails with a permission error, everything else deletes fine. -/
def fsScenD : FS where
  exists_ := fun p => !(p == ["gone"])
  duSize := fun _ => some 1024
  rmtree := fun p => if p == ["locked"] then .permissionError else .ok
  sudoRm := fun _ => .ok

/-- Witness for C3 (amended) at spec Scenario D: three authorized paths,
one vanished, one deletable, one permission-denied. -/
theorem batch_delete_iterates_authorization_store_w :
    ∃ deleted failed freed hint st2 attempts,
      forceDeleteCruft ⟨[["gone"], ["ok"], ["locked"]], fsScenD⟩ true false
        = (.report deleted failed freed hint, st2, attempts) ∧
      (∀ p ∈ ([[("gone" : String)], ["ok"], ["locked"]] : List FPath),
          fsScenD.exists_ p = false →
          p ∉ deleted ∧ (∀ e, (p, e) ∉ failed) ∧ p ∉ st2.pending) ∧
      (∀ p ∈ ([[("gone" : String)], ["ok"], ["locked"]] : List FPath),
          p ∈ deleted ∨ (∃ e, (p, e) ∈ failed) ∨ st2.fs.exists_ p = false) ∧
      freed = (deleted.map fun p => (fsScenD.duSize p).getD 0).sum ∧
      hint = failed.any (fun f => containsSubstr "Permission denied" f.2) :=
  batch_delete_iterates_authorization_store ⟨[["gone"], ["ok"], ["locked"]], fsScenD⟩ false
    (by simp)

/-! ### The scan cache (cache.py `ScanCache`)

`time.time()` is modelled as an explicit `now : Nat` argument.  The
backing store `self._cache : dict[str, CacheEntry]` is an association
list keyed by the canonical path; a dict overwrite is modelled as
remove-then-append, which preserves every observation made through key
lookup and entry count (iteration order of the dict is never observed by
the embedded operations). -/

/-- cache.py `CacheEntry`. -/
structure CacheEntry where
  timestamp : Nat
  sizeBytes : Nat
  exists_ : Bool
  error : Option String := none
deriving DecidableEq, Repr

/-- cache.py `ScanCache` in-memory state. -/
structure ScanCache where
  ttlSeconds : Nat
  entries : List (FPath × CacheEntry)
deriving DecidableEq, Repr

/-- `self._cache.get(key)`. -/
def lookupEntry : List (FPath × CacheEntry) → FPath → Option CacheEntry
  | [], _ => none
  | (k, e) :: rest, key => if k = key then some e else lookupEntry rest key

/-- `ScanCache._is_expired`: `time.time() - entry.timestamp > self.ttl_seconds`
(Python float subtraction of a later timestamp is negative, hence not
greater than a nonnegative TTL, matching truncated `Nat` subtraction). -/
def isExpiredAt (ttl now : Nat) (e : CacheEntry) : Bool :=
  decide (now - e.timestamp > ttl)

/-- `del self._cache[key]` / `self._cache.pop(key, None)`. -/
def eraseKey (l : List (FPath × CacheEntry)) (key : FPath) :
    List (FPath × CacheEntry) :=
  l.filter fun kv => kv.1 ≠ key

/-- `self._cache[key] = entry` (dict write). -/
def insertEntry (l : List (FPath × CacheEntry)) (key : FPath) (e : CacheEntry) :
    List (FPath × CacheEntry) :=
  eraseKey l key ++ [(key, e)]

/-- `ScanCache._clean_expired`. -/
def ScanCache.cleanExpired (c : ScanCache) (now : Nat) : ScanCache :=
  { c with entries := c.entries.filter fun kv => !isExpiredAt c.ttlSeconds now kv.2 }

/-- `ScanCache.get`: an expired entry is purged on read and reported absent. -/
def ScanCache.get (c : ScanCache) (now : Nat) (path : FPath) :
    Option CacheEntry × ScanCache :=
  match lookupEntry c.entries path with
  | none => (none, c)
  | some e =>
    if isExpiredAt c.ttlSeconds now e then
      (none, { c with entries := eraseKey c.entries path })
    else
      (some e, c)

/-- `ScanCache.set`: unconditional overwrite, then the periodic sweep
`if len(self._cache) % 100 == 0: self._clean_expired()`. -/
def ScanCache.set (c : ScanCache) (now : Nat) (path : FPath) (sizeBytes : Nat)
    (ex : Bool) (error : Option String) : ScanCache :=
  if (insertEntry c.entries path ⟨now, sizeBytes, ex, error⟩).length % 100 == 0 then
    ScanCache.cleanExpired
      { c with entries := insertEntry c.entries path ⟨now, sizeBytes, ex, error⟩ } now
  else
    { c with entries := insertEntry c.entries path ⟨now, sizeBytes, ex, error⟩ }

/-- `ScanCache.invalidate`. -/
def ScanCache.invalidate (c : ScanCache) (path : FPath) : ScanCache :=
  { c with entries := eraseKey c.entries path }

/-! Lookup lemmas for the association-list store. -/

theorem lookupEntry_none_of_no_key (l : List (FPath × CacheEntry)) (key : FPath)
    (h : ∀ kv ∈ l, kv.1 ≠ key) : lookupEntry l key = none := by
  induction l with
  | nil => rfl
  | cons kv rest ih =>
    rcases kv with ⟨k, e⟩
    unfold lookupEntry
    rw [if_neg (h (k, e) (by simp))]
    exact ih fun kv hkv => h kv (by simp [hkv])

theorem mem_eraseKey_ne (l : List (FPath × CacheEntry)) (key : FPath)
    (kv : FPath × CacheEntry) (h : kv ∈ eraseKey l key) : kv.1 ≠ key := by
  have hmem := List.mem_filter.mp h
  simpa using hmem.2

theorem lookupEntry_eraseKey (l : List (FPath × CacheEntry)) (key : FPath) :
    lookupEntry (eraseKey l key) key = none :=
  lookupEntry_none_of_no_key _ _ (mem_eraseKey_ne l key)

theorem lookupEntry_append_none (l l2 : List (FPath × CacheEntry)) (key : FPath)
    (h : lookupEntry l key = none) :
    lookupEntry (l ++ l2) key = lookupEntry l2 key := by
  induction l with
  | nil => rfl
  | cons kv rest ih =>
    rcases kv with ⟨k, e⟩
    simp only [List.cons_append, lookupEntry] at h ⊢
    by_cases hk : k = key
    · rw [if_pos hk] at h
      cases h
    · rw [if_neg hk] at h ⊢
      exact ih h

theorem lookupEntry_insertEntry (l : List (FPath × CacheEntry)) (key : FPath)
    (e : CacheEntry) : lookupEntry (insertEntry l key e) key = some e := by
  unfold insertEntry
  rw [lookupEntry_append_none _ _ _ (lookupEntry_eraseKey l key)]
  simp [lookupEntry]

theorem lookupEntry_filter_insertEntry (l : List (FPath × CacheEntry)) (key : FPath)
    (e : CacheEntry) (q : FPath × CacheEntry → Bool) (hq : q (key, e) = true) :
    lookupEntry ((insertEntry l key e).filter q) key = some e := by
  unfold insertEntry
  rw [List.filter_append]
  have hnone : lookupEntry ((eraseKey l key).filter q) key = none := by
    refine lookupEntry_none_of_no_key _ _ fun kv hkv => ?_
    exact mem_eraseKey_ne l key kv (List.mem_filter.mp hkv).1
  rw [lookupEntry_append_none _ _ _ hnone]
  simp [hq, lookupEntry]

theorem lookupEntry_set_self (c : ScanCache) (now : Nat) (path : FPath)
    (sizeBytes : Nat) (ex : Bool) (error : Option String) :
    lookupEntry (c.set now path sizeBytes ex error).entries path
      = some ⟨now, sizeBytes, ex, error⟩ := by
  unfold ScanCache.set
  split
  · unfold ScanCache.cleanExpired
    exact lookupEntry_filter_insertEntry _ _ _ _ (by simp [isExpiredAt])
  · exact lookupEntry_insertEntry _ _ _

theorem get_of_lookup_some (c : ScanCache) (now : Nat) (path : FPath) (e : CacheEntry)
    (h : lookupEntry c.entries path = some e) :
    c.get now path
      = if isExpiredAt c.ttlSeconds now e then
          (none, { c with entries := eraseKey c.entries path })
        else (some e, c) := by
  unfold ScanCache.get
  rw [h]

/-- C6: cache round-trip and expiry.  Writing an entry and reading it back
at the same instant yields exactly the written entry (in particular its
size); reading at any instant strictly more than the TTL after the write
yields absent, and the expired entry has been purged from the store by
that read. -/
theorem cache_roundtrip_and_expiry (c : ScanCache) (path : FPath) (size : Nat)
    (ex : Bool) (err : Option String) (now later : Nat)
    (hexp : c.ttlSeconds < later - now) :
    ((c.set now path size ex err).get now path).1 = some ⟨now, size, ex, err⟩ ∧
    ((c.set now path size ex err).get later path).1 = none ∧
    lookupEntry ((c.set now path size ex err).get later path).2.entries path = none := by
  have hlook := lookupEntry_set_self c now path size ex err
  have httl : (c.set now path size ex err).ttlSeconds = c.ttlSeconds := by
    unfold ScanCache.set
    split
    · rfl
    · rfl
  refine ⟨?_, ?_, ?_⟩
  · rw [get_of_lookup_some _ _ _ _ hlook]
    rw [if_neg (by simp [isExpiredAt, httl])]
  · rw [get_of_lookup_some _ _ _ _ hlook]
    rw [if_pos (by simp only [isExpiredAt, httl, decide_eq_true_eq]; omega)]
  · rw [get_of_lookup_some _ _ _ _ hlook]
    rw [if_pos (by simp only [isExpiredAt, httl, decide_eq_true_eq]; omega)]
    exact lookupEntry_eraseKey _ _

/-- Witness for C6 at a concrete input: TTL 3600, write at time 0 of a
1000-byte entry, expired read at time 5000. -/
theorem cache_roundtrip_and_expiry_w :
    (((⟨3600, []⟩ : ScanCache).set 0 ["x"] 1000 true none).get 0 ["x"]).1
        = some ⟨0, 1000, true, none⟩ ∧
    (((⟨3600, []⟩ : ScanCache).set 0 ["x"] 1000 true none).get 5000 ["x"]).1 = none ∧
    lookupEntry
        (((⟨3600, []⟩ : ScanCache).set 0 ["x"] 1000 true none).get 5000 ["x"]).2.entries
        ["x"] = none :=
  cache_roundtrip_and_expiry ⟨3600, []⟩ ["x"] 1000 true none 0 5000 (by decide)

set_option maxRecDepth 4000 in
/-- C9 counterexample: the expired-entry sweep is NOT triggered on every
Nth (N = 100) call to `set`.  Starting from a store holding one expired
entry for `/a` (TTL 10, written at time 0, read at time 100), one hundred
consecutive `set` calls for the key `/b` never trigger the sweep — the
store size stays at 2, never a multiple of 100 — so the expired `/a`
entry is still present after the 100th write. -/
theorem cache_sweep_not_every_nth_write_cx :
    lookupEntry
        ((fun c : ScanCache => c.set 100 ["b"] 5 true none)^[100]
            ⟨10, [(["a"], ⟨0, 7, true, none⟩)]⟩).entries ["a"]
        = some ⟨0, 7, true, none⟩ ∧
    isExpiredAt 10 100 ⟨0, 7, true, none⟩ = true := by
  constructor
  · decide
  · decide

/-- C9 (amended): the sweep triggers on a write exactly when the number of
stored entries after the insert is a multiple of 100 — not on every Nth
call to `set` (overwrites of existing keys leave the count unchanged).
When it does trigger, every entry left in the store is unexpired, and the
just-written entry survives the sweep. -/
theorem cache_sweep_on_entry_count_multiple (c : ScanCache) (now : Nat) (path : FPath)
    (size : Nat) (ex : Bool) (err : Option String)
    (htrig : (insertEntry c.entries path ⟨now, size, ex, err⟩).length % 100 = 0) :
    (∀ kv ∈ (c.set now path size ex err).entries,
        isExpiredAt c.ttlSeconds now kv.2 = false) ∧
    lookupEntry (c.set now path size ex err).entries path
        = some ⟨now, size, ex, err⟩ := by
  constructor
  · intro kv hkv
    unfold ScanCache.set at hkv
    rw [if_pos (by simp [htrig])] at hkv
    unfold ScanCache.cleanExpired at hkv
    have hf := (List.mem_filter.mp hkv).2
    simpa using hf
  · exact lookupEntry_set_self c now path size ex err

/-- A store holding 99 distinct stale entries (TTL 10, all written at
time 0), used to exercise the sweep trigger. -/
def staleStore : ScanCache :=
  ⟨10, (List.range 99).map fun i => ([Nat.repr i], ⟨0, 0, true, none⟩)⟩

/-- Witness for C9 (amended): the 100th distinct key triggers the sweep,
which removes all 99 stale entries and keeps the fresh one. -/
theorem cache_sweep_on_entry_count_multiple_w :
    (insertEntry staleStore.entries ["fresh"] ⟨100, 5, true, none⟩).length % 100 = 0 ∧
    (∀ kv ∈ (staleStore.set 100 ["fresh"] 5 true none).entries,
        isExpiredAt staleStore.ttlSeconds 100 kv.2 = false) ∧
    lookupEntry (staleStore.set 100 ["fresh"] 5 true none).entries ["fresh"]
        = some ⟨100, 5, true, none⟩ :=
  ⟨by decide,
   (cache_sweep_on_entry_count_multiple staleStore 100 ["fresh"] 5 true none (by decide)).1,
   (cache_sweep_on_entry_count_multiple staleStore 100 ["fresh"] 5 true none (by decide)).2⟩

/-! ### Size measurement (scanner.py `get_dir_size`, cached path) -/

/-- Result of the `du -sk` subprocess as observed by `get_dir_size`:
success with a kilobyte count, a nonzero exit, `TimeoutExpired`, an
unparsable stdout, or some other exception. -/
inductive DuRes where
  | ok (kb : Nat)
  | nonzeroExit
  | timeoutExpired
  | parseFailure
  | otherFailure (msg : String)
deriving DecidableEq, Repr

/-- The exception classes `get_dir_size` can raise. -/
inductive GdsErr where
  | timeoutError
  | scanError
deriving DecidableEq, Repr

/-- Observable result of one `get_dir_size` call with `use_cache=True`:
the returned value or raised exception, the cache state afterwards, and
whether the `du` subprocess was actually run. -/
structure GdsResult where
  result : Except GdsErr (Option Nat)
  cache : ScanCache
  ranDu : Bool
deriving Repr

/-- Python truthiness of the `error` field (`if cached_entry.error:`):
true only for a non-empty string. -/
def errTruthy : Option String → Bool
  | none => false
  | some s => !(s == "")

/-- scanner.py `get_dir_size` with `use_cache=True`: consult the cache
first (a truthy cached error short-circuits to `None`; otherwise the
cached size is returned when the entry says the path exists); on a cache
miss, check existence, run `du -sk`, cache and classify the outcome.  A
nonzero `du` exit returns `None` without caching anything. -/
def getDirSize (c : ScanCache) (now : Nat) (exists_ : FPath → Bool)
    (du : FPath → DuRes) (path : FPath) : GdsResult :=
  match c.get now path with
  | (some entry, c1) =>
    if errTruthy entry.error then ⟨.ok none, c1, false⟩
    else if entry.exists_ then ⟨.ok (some entry.sizeBytes), c1, false⟩
    else ⟨.ok none, c1, false⟩
  | (none, c1) =>
    if exists_ path = false then
      ⟨.ok none, c1.set now path 0 false none, false⟩
    else
      match du path with
      | .ok kb => ⟨.ok (some (kb * 1024)), c1.set now path (kb * 1024) true none, true⟩
      | .nonzeroExit => ⟨.ok none, c1, true⟩
      | .timeoutExpired => ⟨.error .timeoutError, c1.set now path 0 true (some "Timeout"), true⟩
      | .parseFailure => ⟨.error .scanError, c1.set now path 0 true (some "Parse error"), true⟩
      | .otherFailure m => ⟨.error .scanError, c1.set now path 0 true (some m), true⟩

/-- C10 counterexample: "error field is set" does not imply the
measurement short-circuits to a failure.  A cached unexpired entry whose
`error` field is set to the empty string (falsy in Python) is NOT treated
as a cached failure: with the path present on disk and `du` reporting
7 KB, `get_dir_size` returns the cached size 5 (not a no-size failure),
still without re-measuring. -/
theorem cached_error_entry_cx :
    (getDirSize ⟨10, [(["d"], ⟨0, 5, true, some ""⟩)]⟩ 0 (fun _ => true)
        (fun _ => .ok 7) ["d"]).result = .ok (some 5) ∧
    (getDirSize ⟨10, [(["d"], ⟨0, 5, true, some ""⟩)]⟩ 0 (fun _ => true)
        (fun _ => .ok 7) ["d"]).ranDu = false := by
  constructor
  · rfl
  · rfl

theorem getDirSize_of_hit (c : ScanCache) (now : Nat) (exists_ : FPath → Bool)
    (du : FPath → DuRes) (path : FPath) (entry : CacheEntry) (c1 : ScanCache)
    (h : c.get now path = (some entry, c1)) :
    getDirSize c now exists_ du path
      = if errTruthy entry.error then ⟨.ok none, c1, false⟩
        else if entry.exists_ then ⟨.ok (some entry.sizeBytes), c1, false⟩
        else ⟨.ok none, c1, false⟩ := by
  unfold getDirSize
  rw [h]

theorem getDirSize_of_miss (c : ScanCache) (now : Nat) (exists_ : FPath → Bool)
    (du : FPath → DuRes) (path : FPath) (c1 : ScanCache)
    (h : c.get now path = (none, c1)) :
    getDirSize c now exists_ du path
      = if exists_ path = false then
          ⟨.ok none, c1.set now path 0 false none, false⟩
        else
          match du path with
          | .ok kb => ⟨.ok (some (kb * 1024)), c1.set now path (kb * 1024) true none, true⟩
          | .nonzeroExit => ⟨.ok none, c1, true⟩
          | .timeoutExpired => ⟨.error .timeoutError, c1.set now path 0 true (some "Timeout"), true⟩
          | .parseFailure => ⟨.error .scanError, c1.set now path 0 true (some "Parse error"), true⟩
          | .otherFailure m => ⟨.error .scanError, c1.set now path 0 true (some m), true⟩ := by
  unfold getDirSize
  rw [h]

theorem get_some_inv (c : ScanCache) (now : Nat) (path : FPath) (entry : CacheEntry)
    (h : (c.get now path).1 = some entry) :
    lookupEntry c.entries path = some entry ∧
    isExpiredAt c.ttlSeconds now entry = false ∧
    (c.get now path).2 = c := by
  rcases hl : lookupEntry c.entries path with _ | e
  · have hg : c.get now path = (none, c) := by
      unfold ScanCache.get
      rw [hl]
    rw [hg] at h
    cases h
  · have hg := get_of_lookup_some c now path e hl
    by_cases hexp : isExpiredAt c.ttlSeconds now e = true
    · rw [hg, if_pos hexp] at h
      cases h
    · rw [hg, if_neg hexp] at h
      have he : e = entry := by simpa using h
      subst he
      rw [hg, if_neg hexp]
      exact ⟨rfl, by simpa using hexp, rfl⟩

/-- C10 (amended): if the cache holds an unexpired entry for a path whose
`error` field is a non-empty string, `get_dir_size` returns `None` (no
size) without running `du` and without touching the cache, even when the
entry's `exists` flag is true and the path is present on disk; after the
entry is invalidated, or once it has expired, a call with the path
present on disk runs `du` again. -/
theorem cached_nonempty_error_short_circuits (c : ScanCache) (now : Nat)
    (exists_ : FPath → Bool) (du : FPath → DuRes) (path : FPath) (entry : CacheEntry)
    (hget : (c.get now path).1 = some entry)
    (herr : errTruthy entry.error = true) :
    (getDirSize c now exists_ du path).result = .ok none ∧
    (getDirSize c now exists_ du path).ranDu = false ∧
    (getDirSize c now exists_ du path).cache = c ∧
    (exists_ path = true →
        (getDirSize (c.invalidate path) now exists_ du path).ranDu = true) ∧
    (∀ later, c.ttlSeconds < later - entry.timestamp → exists_ path = true →
        (getDirSize c later exists_ du path).ranDu = true) := by
  obtain ⟨hlook, hnexp, hsnd⟩ := get_some_inv c now path entry hget
  have hpair : c.get now path = (some entry, c) := by
    rcases hp : c.get now path with ⟨a, b⟩
    rw [hp] at hget hsnd
    simp only at hget hsnd
    rw [hget, hsnd]
  refine ⟨?_, ?_, ?_, ?_, ?_⟩
  · rw [getDirSize_of_hit c now exists_ du path entry c hpair]
    simp [herr]
  · rw [getDirSize_of_hit c now exists_ du path entry c hpair]
    simp [herr]
  · rw [getDirSize_of_hit c now exists_ du path entry c hpair]
    simp [herr]
  · intro hex
    have hmiss : (ScanCache.invalidate c path).get now path = (none, c.invalidate path) := by
      unfold ScanCache.get ScanCache.invalidate
      rw [lookupEntry_eraseKey]
    rw [getDirSize_of_miss _ _ _ _ _ _ hmiss]
    rw [if_neg (by simp [hex])]
    rcases du path with kb | _ | _ | _ | m <;> rfl
  · intro later hlater hex
    have hmiss : c.get later path
        = (none, { c with entries := eraseKey c.entries path }) := by
      rw [get_of_lookup_some c later path entry hlook]
      rw [if_pos (by simp only [isExpiredAt, decide_eq_true_eq]; omega)]
    rw [getDirSize_of_miss _ _ _ _ _ _ hmiss]
    rw [if_neg (by simp [hex])]
    rcases du path with kb | _ | _ | _ | m <;> rfl

/-- Witness for C10 (amended) at a concrete input: a cached timeout error
for an existing path. -/
theorem cached_nonempty_error_short_circuits_w :
    (getDirSize ⟨10, [(["d"], ⟨0, 0, true, some "Timeout"⟩)]⟩ 0 (fun _ => true)
        (fun _ => .ok 7) ["d"]).result = .ok none ∧
    (getDirSize ⟨10, [(["d"], ⟨0, 0, true, some "Timeout"⟩)]⟩ 0 (fun _ => true)
        (fun _ => .ok 7) ["d"]).ranDu = false ∧
    (getDirSize ⟨10, [(["d"], ⟨0, 0, true, some "Timeout"⟩)]⟩ 0 (fun _ => true)
        (fun _ => .ok 7) ["d"]).cache = ⟨10, [(["d"], ⟨0, 0, true, some "Timeout"⟩)]⟩ ∧
    ((fun _ : FPath => true) ["d"] = true →
        (getDirSize ((⟨10, [(["d"], ⟨0, 0, true, some "Timeout"⟩)]⟩ :
            ScanCache).invalidate ["d"]) 0 (fun _ => true) (fun _ => .ok 7) ["d"]).ranDu
          = true) ∧
    (∀ later, (10 : Nat) < later - 0 → (fun _ : FPath => true) ["d"] = true →
        (getDirSize ⟨10, [(["d"], ⟨0, 0, true, some "Timeout"⟩)]⟩ later (fun _ => true)
            (fun _ => .ok 7) ["d"]).ranDu = true) :=
  cached_nonempty_error_short_circuits ⟨10, [(["d"], ⟨0, 0, true, some "Timeout"⟩)]⟩ 0
    (fun _ => true) (fun _ => .ok 7) ["d"] ⟨0, 0, true, some "Timeout"⟩ rfl (by decide)

/-! ### Catalog scan pass (scanner.py `scan_known_cruft`) -/

/-- scanner.py `CruftItem` (the float size properties are derived views
and are omitted; `toolInstalled` is the tri-state optional boolean). -/
structure CruftItem where
  path : FPath
  sizeBytes : Nat
  category : String
  description : String
  safe : Bool
  toolInstalled : Option Bool
deriving DecidableEq, Repr

/-- The per-pattern closure `scan_pattern` of scanner.py
`scan_known_cruft`.  `measure` abstracts `get_dir_size` through the
shared cache (`none` when the measurement failed or raised, in which case
the enclosing `except` skips the pattern); `toolCheck` abstracts
`check_command_exists`. -/
def scanPattern (home : FPath) (minSizeMb : Nat) (exists_ : FPath → Bool)
    (measure : FPath → Option Nat) (toolCheck : String → Bool)
    (pat : CruftPattern) : Option CruftItem :=
  if exists_ (home ++ pat.pathSuffix) = false then none
  else
    match measure (home ++ pat.pathSuffix) with
    | none => none
    | some size =>
      if size < max pat.minSizeMb minSizeMb * 1024 * 1024 then none
      else
        some ⟨home ++ pat.pathSuffix, size, pat.category, pat.description, pat.safe,
              match pat.checkInstalled with
              | some cmd => some (toolCheck cmd)
              | none => none⟩

/-- scanner.py `scan_known_cruft`: the worker pool collects exactly the
non-`None` results of `scan_pattern` over the catalog (worker completion
order only permutes the list; membership is deterministic). -/
def scanKnownCruft (home : FPath) (minSizeMb : Nat) (exists_ : FPath → Bool)
    (measure : FPath → Option Nat) (toolCheck : String → Bool) : List CruftItem :=
  CRUFT_PATTERNS.filterMap (scanPattern home minSizeMb exists_ measure toolCheck)

/-- C5: a catalog pattern whose expanded target exists and was measured
successfully at `S` bytes contributes an item to the catalog scan output
iff `S` is at least `max(pattern.min_size_mb, global_min_size_mb)`
megabytes; when it does, the output contains the item for that path with
that size. -/
theorem scan_pattern_size_threshold (home : FPath) (minSizeMb : Nat)
    (exists_ : FPath → Bool) (measure : FPath → Option Nat) (toolCheck : String → Bool)
    (pat : CruftPattern) (hp : pat ∈ CRUFT_PATTERNS) (S : Nat)
    (hex : exists_ (home ++ pat.pathSuffix) = true)
    (hm : measure (home ++ pat.pathSuffix) = some S) :
    ((scanPattern home minSizeMb exists_ measure toolCheck pat).isSome = true
        ↔ max pat.minSizeMb minSizeMb * 1024 * 1024 ≤ S) ∧
    (max pat.minSizeMb minSizeMb * 1024 * 1024 ≤ S →
        ∃ item ∈ scanKnownCruft home minSizeMb exists_ measure toolCheck,
          item.path = home ++ pat.pathSuffix ∧ item.sizeBytes = S) := by
  have hsp : scanPattern home minSizeMb exists_ measure toolCheck pat
      = if S < max pat.minSizeMb minSizeMb * 1024 * 1024 then none
        else some ⟨home ++ pat.pathSuffix, S, pat.category, pat.description, pat.safe,
              match pat.checkInstalled with
              | some cmd => some (toolCheck cmd)
              | none => none⟩ := by
    unfold scanPattern
    rw [if_neg (by simp [hex]), hm]
  constructor
  · rw [hsp]
    by_cases hlt : S < max pat.minSizeMb minSizeMb * 1024 * 1024
    · rw [if_pos hlt]
      simp [Nat.not_le_of_lt hlt]
    · rw [if_neg hlt]
      simp [Nat.le_of_not_lt hlt]
  · intro hge
    refine ⟨⟨home ++ pat.pathSuffix, S, pat.category, pat.description, pat.safe,
        match pat.checkInstalled with
        | some cmd => some (toolCheck cmd)
        | none => none⟩, ?_, rfl, rfl⟩
    unfold scanKnownCruft
    rw [List.mem_filterMap]
    refine ⟨pat, hp, ?_⟩
    rw [hsp, if_neg (Nat.not_lt_of_le hge)]

/-- Witness for C5 at spec Scenario B: pattern minimum 100 MB, global
minimum 50 MB, measured size 80 MB — the effective minimum is the max, so
the 80 MB measurement is excluded. -/
theorem scan_pattern_size_threshold_w :
    ((scanPattern ["Users", "u"] 50 (fun _ => true) (fun _ => some 83886080)
        (fun _ => true)
        ⟨[".cache", "pre-commit"], "python", "Pre-commit hook environments",
          some "pre-commit --version", true, 100⟩).isSome = true
      ↔ max 100 50 * 1024 * 1024 ≤ 83886080) ∧
    (max 100 50 * 1024 * 1024 ≤ 83886080 →
      ∃ item ∈ scanKnownCruft ["Users", "u"] 50 (fun _ => true)
          (fun _ => some 83886080) (fun _ => true),
        item.path = ["Users", "u"] ++ [".cache", "pre-commit"] ∧
        item.sizeBytes = 83886080) :=
  scan_pattern_size_threshold ["Users", "u"] 50 (fun _ => true) (fun _ => some 83886080)
    (fun _ => true)
    ⟨[".cache", "pre-commit"], "python", "Pre-commit hook environments",
      some "pre-commit --version", true, 100⟩
    (by decide) 83886080 rfl rfl

/-! ### Explicit approval (tools.py `approve_path_for_deletion` branch) -/

/-- Result of an `approve_path_for_deletion` request.  The `approved`
constructor carries the measured size and the reason string, both of
which appear only in the returned message — the authorization store
itself records just the path. -/
inductive ApproveResult where
  | nonExistent
  | protectedPath
  | approved (size : Option Nat) (reason : String)
deriving DecidableEq, Repr

/-- The `approve_path_for_deletion` branch of tools.py `execute_tool`:
`reason` defaults to "User requested" when absent
(`args.get("reason", "User requested")`), a non-existent path cannot be
approved, an exact protected path cannot be approved, and otherwise
`require_confirmation` registers the path (set insertion). -/
def approvePathForDeletion (home : FPath) (st : DState) (path : FPath)
    (reason : Option String) : ApproveResult × DState :=
  if st.fs.exists_ path = false then (.nonExistent, st)
  else if path ∈ protectedList home then (.protectedPath, st)
  else
    (.approved (st.fs.duSize path) (reason.getD "User requested"),
     { st with pending := if path ∈ st.pending then st.pending else st.pending ++ [path] })

/-- C7 counterexample: an approval request with an empty reason string
DOES register the path as deletable.  With home `/Users/u`, approving the
existing non-protected path `/Users/u/.cache/pip` with `reason = ""`
succeeds, registers the path in the authorization set, and a subsequent
`delete_directory` on it (no flags) goes through to a successful removal
— refuting the claim that a missing non-empty reason prevents
registration.  The approval result carries the reason only in its
message; no reason is stored. -/
theorem approve_empty_reason_registers_cx :
    (approvePathForDeletion ["Users", "u"] ⟨[], fsAllOk⟩
        ["Users", "u", ".cache", "pip"] (some "")).1 = .approved (some 42) "" ∧
    (["Users", "u", ".cache", "pip"] : FPath)
      ∈ (approvePathForDeletion ["Users", "u"] ⟨[], fsAllOk⟩
          ["Users", "u", ".cache", "pip"] (some "")).2.pending ∧
    (deleteDirectory ["Users", "u"]
        (approvePathForDeletion ["Users", "u"] ⟨[], fsAllOk⟩
          ["Users", "u", ".cache", "pip"] (some "")).2
        ["Users", "u", ".cache", "pip"] false false).outcome = .success (some 42) := by
  refine ⟨?_, ?_, ?_⟩ <;> decide

/-- C7 (amended): `approve_path_for_deletion` registers any existing path
that is not exactly a protected path, regardless of the reason argument
(an absent reason defaults to "User requested"); the reason is echoed in
the returned message but not recorded in the authorization store, which
holds only path strings, and the filesystem is untouched. -/
theorem approve_registers_regardless_of_reason (home : FPath) (st : DState)
    (path : FPath) (reason : Option String)
    (hex : st.fs.exists_ path = true)
    (hprot : path ∉ protectedList home) :
    (approvePathForDeletion home st path reason).1
        = .approved (st.fs.duSize path) (reason.getD "User requested") ∧
    path ∈ (approvePathForDeletion home st path reason).2.pending ∧
    (approvePathForDeletion home st path reason).2.fs = st.fs := by
  unfold approvePathForDeletion
  rw [if_neg (by simp [hex]), if_neg hprot]
  refine ⟨rfl, ?_, rfl⟩
  by_cases hmem : path ∈ st.pending
  · simp [hmem]
  · simp [hmem]

/-- Witness for C7 (amended): approving an existing non-protected path
with no reason argument at all. -/
theorem approve_registers_regardless_of_reason_w :
    (approvePathForDeletion ["Users", "u"] ⟨[], fsAllOk⟩ ["data", "big"] none).1
        = .approved (fsAllOk.duSize ["data", "big"]) (Option.getD none "User requested") ∧
    (["data", "big"] : FPath)
      ∈ (approvePathForDeletion ["Users", "u"] ⟨[], fsAllOk⟩ ["data", "big"] none).2.pending ∧
    (approvePathForDeletion ["Users", "u"] ⟨[], fsAllOk⟩ ["data", "big"] none).2.fs
        = fsAllOk :=
  approve_registers_regardless_of_reason ["Users", "u"] ⟨[], fsAllOk⟩ ["data", "big"]
    none rfl (by decide)

/-! ### node_modules discovery (scanner.py `find_node_modules`) -/

/-- A discovered node_modules instance: the path string exactly as the
`find` line reported it, its measured size, and the description built
from the parent directory name. -/
structure NmItem where
  path : String
  sizeBytes : Nat
  description : String
deriving DecidableEq, Repr

/-- `s.split("/")` on the character list (Python string `split`
semantics: a leading separator yields a leading empty field). -/
def splitOnSlash : List Char → List (List Char)
  | [] => [[]]
  | c :: rest =>
    if c = '/' then [] :: splitOnSlash rest
    else
      match splitOnSlash rest with
      | [] => [[c]]
      | g :: gs => (c :: g) :: gs

/-- The `/`-separated fields of a path string. -/
def pathComponentsOf (s : String) : List String :=
  (splitOnSlash s.data).map fun cs => String.mk cs

/-- `Path(line).parent.name` for an absolute path string. -/
def parentNameOf (line : String) : String :=
  ((pathComponentsOf line).dropLast).getLastD ""

/-- The per-line processing of scanner.py `find_node_modules` applied to
the raw `find … -type d -name node_modules -maxdepth 4` output `lines`:
empty lines are dropped, a line containing the substring
`node_modules/node_modules` is skipped, the rest are measured (`measure`
abstracts `get_dir_size`; `none` means failure) and kept when at least
`minSizeMb` megabytes. -/
def findNodeModulesProcess (measure : String → Option Nat) (minSizeMb : Nat)
    (lines : List String) : List NmItem :=
  lines.filterMap fun line =>
    if line = "" then none
    else if containsSubstr "node_modules/node_modules" line then none
    else
      match measure line with
      | none => none
      | some size =>
        if size < minSizeMb * 1024 * 1024 then none
        else some ⟨line, size, "node_modules in " ++ parentNameOf line⟩

/-- C8 counterexample: the discovery pass does NOT exclude every nested
occurrence.  `find` reports both `/h/p/node_modules` and the nested
`/h/p/node_modules/pkg/node_modules`; the latter does not contain the
literal substring `node_modules/node_modules`, so with both measuring
300 MB (minimum 200 MB) both appear in the output — a directory and a
same-named strict descendant of it. -/
theorem nm_nested_not_excluded_cx :
    (⟨"/h/p/node_modules", 314572800, "node_modules in p"⟩ : NmItem)
        ∈ findNodeModulesProcess (fun _ => some 314572800) 200
            ["/h/p/node_modules", "/h/p/node_modules/pkg/node_modules"] ∧
    (⟨"/h/p/node_modules/pkg/node_modules", 314572800, "node_modules in pkg"⟩ : NmItem)
        ∈ findNodeModulesProcess (fun _ => some 314572800) 200
            ["/h/p/node_modules", "/h/p/node_modules/pkg/node_modules"] ∧
    pathStartsWith (pathComponentsOf "/h/p/node_modules/pkg/node_modules")
        (pathComponentsOf "/h/p/node_modules") = true ∧
    pathComponentsOf "/h/p/node_modules/pkg/node_modules"
        ≠ pathComponentsOf "/h/p/node_modules" ∧
    (pathComponentsOf "/h/p/node_modules/pkg/node_modules").getLastD ""
        = (pathComponentsOf "/h/p/node_modules").getLastD "" := by
  refine ⟨?_, ?_, ?_, ?_, ?_⟩ <;> decide

/-- C8 (amended): the discovery pass excludes exactly the occurrences
whose reported path contains the literal substring
`node_modules/node_modules` — a node_modules directly inside another
node_modules; deeper nested occurrences (such as
`node_modules/<pkg>/node_modules`) are not excluded.  Every item in the
output is free of that substring. -/
theorem nm_excludes_direct_nesting (measure : String → Option Nat) (minSizeMb : Nat)
    (lines : List String) :
    ∀ item ∈ findNodeModulesProcess measure minSizeMb lines,
      containsSubstr "node_modules/node_modules" item.path = false := by
  intro item hitem
  obtain ⟨line, hline, hmap⟩ := List.mem_filterMap.mp hitem
  split at hmap
  · cases hmap
  · split at hmap
    · cases hmap
    · next hsub =>
      split at hmap
      · cases hmap
      · split at hmap
        · cases hmap
        · injection hmap with h4
          rw [← h4]
          simpa using hsub

/-- Witness for C8 (amended) at a concrete input. -/
theorem nm_excludes_direct_nesting_w :
    containsSubstr "node_modules/node_modules"
        (⟨"/h/q/node_modules", 314572800, "node_modules in q"⟩ : NmItem).path = false :=
  nm_excludes_direct_nesting (fun _ => some 314572800) 200 ["/h/q/node_modules"]
    ⟨"/h/q/node_modules", 314572800, "node_modules in q"⟩ (by decide)

end DevClean
